import Mathlib

/-
Verification of the geodesic shortest-path engine
(`Polyhedron_shortest_path.h`, CGAL's Chen–Han / Xin–Wang implementation).

The engine is shallowly embedded below.  The numeric type `FT` of the C++
template is an arbitrary ordered field; we keep it as a type parameter `F`
with a `LinearOrderedField` instance.  The external geometry kernel
(`Traits`) is out of scope of the engine itself, so kernel operations the
engine merely calls (distance computation, triangle projection, relative
intersection comparison, point location in a layout triangle) enter the
embedding as function parameters, exactly at the call sites the C++ code
uses them.  Mesh handles and tree-node pointers become natural-number
identifiers; `NULL` pointers become `Option.none`; C++ maps indexed by
vertex/halfedge index become functions `Nat → _` (or `List`s where the
vector's *size* matters, namely for the initialization bounds analysis).
-/

namespace PolySP

/-- The kernel's 2-dimensional point type `Point_2`, specialized to
coordinates in `F`. -/
structure Point2 (F : Type) where
  x : F
  y : F
deriving DecidableEq

/-- The kernel's `Segment_2`: `p0` is `segment[0]`, `p1` is `segment[1]`. -/
structure Segment2 (F : Type) where
  p0 : Point2 F
  p1 : Point2 F
deriving DecidableEq

/-- The kernel's `Triangle_2`; `q0`, `q1`, `q2` are `triangle[0..2]`. -/
structure Triangle2 (F : Type) where
  q0 : Point2 F
  q1 : Point2 F
  q2 : Point2 F
deriving DecidableEq

/-- A barycentric coordinate triple (`Barycentric_coordinate`). -/
structure Bary (F : Type) where
  b0 : F
  b1 : F
  b2 : F
deriving DecidableEq

/-- `Cone_tree_node::Node_type` (the node kinds named by the spec). -/
inductive NodeType where
  | FACE_SOURCE
  | EDGE_SOURCE
  | VERTEX_SOURCE
  | INTERVAL
  | ROOT
deriving DecidableEq

/-- `CGAL::Comparison_result`. -/
inductive ComparisonResult where
  | SMALLER
  | EQUAL
  | LARGER
deriving DecidableEq

/-- A 2D line (used only as an opaque argument to the external comparison
predicate `compare_relative_intersection_along_segment_2`); we carry the
two points spanning it. -/
structure Line2 (F : Type) where
  u : Point2 F
  v : Point2 F
deriving DecidableEq

/-! ## The Xin–Wang distance filter (`window_distance_filter`, claim C2)

The data the filter reads off the cone node `cone` in
`window_distance_filter` (entry segment, target vertex location, source
image, source distance, and the three vertex indices used to look up
`m_closestToVertices`).  The accessors `entry_segment()`,
`target_vertex_location()`, `source_image()`,
`distance_from_source_to_root()`, `target_vertex()` are plain attribute
reads of `Cone_tree_node` (its header is not part of this source tree;
the attributes are those of §3 of the specification). -/
structure FilterCone (F : Type) where
  entrySegment : Segment2 F
  targetVertexLocation : Point2 F
  sourceImage : Point2 F
  distanceFromSourceToRoot : F
  v1Index : ℕ
  v2Index : ℕ
  v3Index : ℕ

/-- `window_distance_filter` (Polyhedron_shortest_path.h, lines 182-245).
`dist p q` stands for the kernel computation
`CGAL::sqrt(compute_squared_distance_2(p, q))`; `closestToVertices` is
`m_closestToVertices` (a node id paired with a distance, the node id
`none` standing for a `NULL` pointer).  Returns `false` when the
candidate child window is pruned. -/
def window_distance_filter {F : Type} [LinearOrderedField F]
    (dist : Point2 F → Point2 F → F)
    (closestToVertices : ℕ → Option ℕ × F)
    (cone : FilterCone F) (windowSegment : Segment2 F) (reversed : Bool) : Bool :=
  let parentEntrySegment := cone.entrySegment
  let v2 := cone.targetVertexLocation
  let I := cone.sourceImage
  let d := cone.distanceFromSourceToRoot
  let v1Distance0 := closestToVertices cone.v1Index
  let v2Distance := closestToVertices cone.v2Index
  let v3Distance0 := closestToVertices cone.v3Index
  let v1Distance := if reversed then v3Distance0 else v1Distance0
  let v3Distance := if reversed then v1Distance0 else v3Distance0
  let A := if reversed then windowSegment.p1 else windowSegment.p0
  let B := if reversed then windowSegment.p0 else windowSegment.p1
  let v1 := if reversed then parentEntrySegment.p1 else parentEntrySegment.p0
  let v3 := if reversed then parentEntrySegment.p0 else parentEntrySegment.p1
  let d1 := v1Distance.2
  let d2 := v2Distance.2
  let d3 := v3Distance.2
  let hasD1 := v1Distance.1.isSome
  let hasD2 := v2Distance.1.isSome
  let hasD3 := v3Distance.1.isSome
  if hasD1 ∧ d + dist I B > d1 + dist v1 B then false
  else if hasD2 ∧ d + dist I A > d2 + dist v2 A then false
  else if hasD3 ∧ d + dist I A > d3 + dist v3 A then false
  else true

/-- C2: the distance filter prunes (returns `false`) if and only if one of
the three dominance inequalities holds at a vertex whose
closest-at-vertex distance is known; in the reversed (right-child) call
the roles of the window endpoints `A`/`B` and of the entry-segment
endpoints `v1`/`v3` are swapped, with `d1`/`d3` swapped accordingly,
while the `v2` check keeps its form. -/
theorem c2_window_distance_filter_prunes_iff {F : Type} [LinearOrderedField F]
    (dist : Point2 F → Point2 F → F) (ctv : ℕ → Option ℕ × F)
    (cone : FilterCone F) (w : Segment2 F) :
    (window_distance_filter dist ctv cone w false = false ↔
      ((ctv cone.v1Index).1.isSome ∧
        cone.distanceFromSourceToRoot + dist cone.sourceImage w.p1 >
          (ctv cone.v1Index).2 + dist cone.entrySegment.p0 w.p1) ∨
      ((ctv cone.v2Index).1.isSome ∧
        cone.distanceFromSourceToRoot + dist cone.sourceImage w.p0 >
          (ctv cone.v2Index).2 + dist cone.targetVertexLocation w.p0) ∨
      ((ctv cone.v3Index).1.isSome ∧
        cone.distanceFromSourceToRoot + dist cone.sourceImage w.p0 >
          (ctv cone.v3Index).2 + dist cone.entrySegment.p1 w.p0)) ∧
    (window_distance_filter dist ctv cone w true = false ↔
      ((ctv cone.v3Index).1.isSome ∧
        cone.distanceFromSourceToRoot + dist cone.sourceImage w.p0 >
          (ctv cone.v3Index).2 + dist cone.entrySegment.p1 w.p0) ∨
      ((ctv cone.v2Index).1.isSome ∧
        cone.distanceFromSourceToRoot + dist cone.sourceImage w.p1 >
          (ctv cone.v2Index).2 + dist cone.targetVertexLocation w.p1) ∨
      ((ctv cone.v1Index).1.isSome ∧
        cone.distanceFromSourceToRoot + dist cone.sourceImage w.p1 >
          (ctv cone.v1Index).2 + dist cone.entrySegment.p0 w.p1)) := by
  constructor <;>
  · simp only [window_distance_filter]
    split_ifs with h1 h2 h3 <;> simp_all

/-! ## Occupier arbitration (`process_node`, target-containment branch, claim C3)

The slice of `Cone_tree_node` read by the arbitration code of
`process_node` (lines 540-705).  `is_vertex_node` and `is_source_node`
live in the missing `Cone_tree.h` header. -/
structure ConeNode (F : Type) where
  nid : ℕ
  nodeType : NodeType
  entryEdgeIndex : ℕ
  targetVertexIndex : ℕ
  distanceFromTargetToRoot : F
  isNullFace : Bool
  entrySegment : Segment2 F
  rayToTargetLine : Line2 F

/-- Modelled from the spec: `Cone_tree_node::is_vertex_node` — §4.6 calls
`VERTEX_SOURCE` nodes "vertex nodes" in the tie-break rules
("vertex source ⇒ new is to the right; existing vertex ⇒ new is to the
left"); the header defining the accessor is not in this source tree. -/
def ConeNode.is_vertex_node {F : Type} (n : ConeNode F) : Bool :=
  n.nodeType = NodeType.VERTEX_SOURCE

/-- Modelled from the spec: `Cone_tree_node::is_source_node` — §4.6 takes
the target-containment branch "when `n` is a vertex/edge/face source";
the header defining the accessor is not in this source tree. -/
def ConeNode.is_source_node {F : Type} (n : ConeNode F) : Bool :=
  n.nodeType = NodeType.FACE_SOURCE ∨ n.nodeType = NodeType.EDGE_SOURCE ∨
    n.nodeType = NodeType.VERTEX_SOURCE

/-- Outcome of the target-containment branch of `process_node`:
the updated `m_vertexOccupiers` map (indexed by halfedge index, storing
the occupying node and its arrival distance), whether the processed node
won the arbitration, the computed `isLeftOfCurrent`, and the two
propagation flags.  (The eviction of the loser's child subtree and the
closest-at-vertex update are side effects on other state, modelled
separately by `delete_node` below.) -/
structure ArbOutcome (F : Type) where
  vertexOccupiers : ℕ → Option (ConeNode F) × F
  becameOccupier : Bool
  isLeftOfCurrent : Bool
  propagateLeft : Bool
  propagateRight : Bool

/-- The target-containment branch of `process_node`
(Polyhedron_shortest_path.h, lines 540-705), as a transition on the
`m_vertexOccupiers` table.  `cmp` is the external kernel predicate
`compare_relative_intersection_along_segment_2`, called on the node's
entry segment and ray-to-target-vertex supporting line and the current
occupier's. -/
def process_node_target_branch {F : Type} [LinearOrderedField F]
    (cmp : Segment2 F → Line2 F → Segment2 F → Line2 F → ComparisonResult)
    (vertexOccupiers : ℕ → Option (ConeNode F) × F)
    (node : ConeNode F) : ArbOutcome F :=
  let entryEdgeIndex := node.entryEdgeIndex
  let currentOccupier := vertexOccupiers entryEdgeIndex
  let currentNodeDistance := node.distanceFromTargetToRoot
  let isLeftOfCurrent : Bool :=
    match currentOccupier.1 with
    | none => false
    | some occ =>
      if node.is_vertex_node then false
      else if occ.is_vertex_node then true
      else cmp node.entrySegment node.rayToTargetLine
             occ.entrySegment occ.rayToTargetLine = ComparisonResult.SMALLER
  if currentOccupier.1.isNone ∨ currentOccupier.2 > currentNodeDistance then
    { vertexOccupiers := fun i =>
        if i = entryEdgeIndex then (some node, currentNodeDistance) else vertexOccupiers i
      becameOccupier := true
      isLeftOfCurrent := isLeftOfCurrent
      propagateLeft :=
        if node.nodeType ≠ NodeType.INTERVAL ∧ node.isNullFace then false else true
      propagateRight := decide (node.nodeType = NodeType.INTERVAL) }
  else
    { vertexOccupiers := vertexOccupiers
      becameOccupier := false
      isLeftOfCurrent := isLeftOfCurrent
      propagateLeft := isLeftOfCurrent
      propagateRight := !isLeftOfCurrent && !node.is_source_node }

/-- C3: in the target-containment branch, the processed node becomes the
occupier of its entry halfedge exactly when that halfedge has no
occupier or the current occupier's stored distance is strictly greater
than the node's `distance_from_target_to_root`; and the node is deemed
left of the current occupier exactly when there is an occupier, the node
is not a vertex-source node, and either the occupier is a vertex-source
node or `compare_relative_intersection_along_segment_2` on the two entry
segments and rays-to-target-vertex returns `SMALLER`. -/
theorem c3_process_node_arbitration {F : Type} [LinearOrderedField F]
    (cmp : Segment2 F → Line2 F → Segment2 F → Line2 F → ComparisonResult)
    (vo : ℕ → Option (ConeNode F) × F) (node : ConeNode F) :
    ((process_node_target_branch cmp vo node).becameOccupier = true ∧
      (process_node_target_branch cmp vo node).vertexOccupiers node.entryEdgeIndex =
        (some node, node.distanceFromTargetToRoot) ↔
      (vo node.entryEdgeIndex).1 = none ∨
        (vo node.entryEdgeIndex).2 > node.distanceFromTargetToRoot) ∧
    ((process_node_target_branch cmp vo node).isLeftOfCurrent = true ↔
      ∃ occ, (vo node.entryEdgeIndex).1 = some occ ∧
        node.is_vertex_node = false ∧
        (occ.is_vertex_node = true ∨
          cmp node.entrySegment node.rayToTargetLine
            occ.entrySegment occ.rayToTargetLine = ComparisonResult.SMALLER)) := by
  rcases h : (vo node.entryEdgeIndex).1 with _ | occ
  · simp [process_node_target_branch, h]
  · by_cases hd : (vo node.entryEdgeIndex).2 > node.distanceFromTargetToRoot <;>
      by_cases hv : node.is_vertex_node = true <;>
      by_cases ho : occ.is_vertex_node = true <;>
      simp [process_node_target_branch, h, hd, hv, ho]

/-! ## Face queries (`nearest_on_face`, claims C4, C9, C10)

The slice of a cone-tree node consulted by `nearest_on_face`: its source
distance and source image, the window-membership test
(`Cone_tree_node::inside_window`, a predicate of the missing
`Cone_tree.h` header, kept opaque per cone), and the map sending a
barycentric coordinate to its 2D image in the node's layout triangle
(`face_location_with_normalized_coordinate`, which calls the external
kernel's `construct_triangle_location_2` after rotating the coordinate
by the node's `edge_face_index`). -/
structure FaceCone (F : Type) where
  distanceFromSourceToRoot : F
  sourceImage : Point2 F
  insideWindowFn : Point2 F → Bool
  layoutLocate : Bary F → Point2 F

/-- Modelled from the spec: `Cone_tree_node::distance_to_root(p) = d + ||I − p||`
(§4.7); the header defining it is not in this source tree.  `dist` is the
kernel's point-to-point distance. -/
def distance_to_root {F : Type} [LinearOrderedField F]
    (dist : Point2 F → Point2 F → F) (c : FaceCone F) (p : Point2 F) : F :=
  c.distanceFromSourceToRoot + dist c.sourceImage p

/-- `face_location_with_normalized_coordinate` (lines 1012-1015): the 2D
image of the query's barycentric coordinate in the cone's layout face. -/
def face_location_in_context {F : Type} (c : FaceCone F) (alpha : Bary F) : Point2 F :=
  c.layoutLocate alpha

/-- One iteration of the scan loop in `nearest_on_face`
(lines 1026-1047), processing candidate `ic` (list position paired with
the cone) against the current `(closest, closestDistance)` accumulator
(`none` = `closest == NULL`).  The first branch is the skip optimization
`closest != NULL && current->distance_from_source_to_root() >= closestDistance`. -/
def nearest_on_face_step {F : Type} [LinearOrderedField F]
    (dist : Point2 F → Point2 F → F) (alpha : Bary F)
    (acc : Option (ℕ × F)) (ic : ℕ × FaceCone F) : Option (ℕ × F) :=
  match acc with
  | some (j, closestDistance) =>
    if ic.2.distanceFromSourceToRoot ≥ closestDistance then some (j, closestDistance)
    else
      let locationInContext := face_location_in_context ic.2 alpha
      if ic.2.insideWindowFn locationInContext then
        let currentDistance := distance_to_root dist ic.2 locationInContext
        if currentDistance < closestDistance then some (ic.1, currentDistance)
        else some (j, closestDistance)
      else some (j, closestDistance)
  | none =>
    let locationInContext := face_location_in_context ic.2 alpha
    if ic.2.insideWindowFn locationInContext then
      some (ic.1, distance_to_root dist ic.2 locationInContext)
    else none

/-- `nearest_on_face` (lines 1017-1050): scan the face-occupier list,
returning the nearest cone's list position and its distance, or `none`
when no cone's window contains the query (in which case the C++
function returns the `NULL` closest pointer paired with an
*uninitialized* distance — no defined numeric value). -/
def nearest_on_face {F : Type} [LinearOrderedField F]
    (dist : Point2 F → Point2 F → F) (alpha : Bary F)
    (cones : List (FaceCone F)) : Option (ℕ × F) :=
  cones.enum.foldl (nearest_on_face_step dist alpha) none

/-- `shortest_distance_to_location` (lines 1326-1329) returns
`nearest_on_face(face, alpha).second`; the distance is only a defined
value when a containing cone exists. -/
def shortest_distance_to_location {F : Type} [LinearOrderedField F]
    (dist : Point2 F → Point2 F → F) (alpha : Bary F)
    (cones : List (FaceCone F)) : Option F :=
  (nearest_on_face dist alpha cones).map Prod.snd

/-- The scan step without the skip optimization (the naive reference
scan of claim C10, which evaluates every candidate). -/
def nearest_on_face_step_noskip {F : Type} [LinearOrderedField F]
    (dist : Point2 F → Point2 F → F) (alpha : Bary F)
    (acc : Option (ℕ × F)) (ic : ℕ × FaceCone F) : Option (ℕ × F) :=
  match acc with
  | some (j, closestDistance) =>
    let locationInContext := face_location_in_context ic.2 alpha
    if ic.2.insideWindowFn locationInContext then
      let currentDistance := distance_to_root dist ic.2 locationInContext
      if currentDistance < closestDistance then some (ic.1, currentDistance)
      else some (j, closestDistance)
    else some (j, closestDistance)
  | none =>
    let locationInContext := face_location_in_context ic.2 alpha
    if ic.2.insideWindowFn locationInContext then
      some (ic.1, distance_to_root dist ic.2 locationInContext)
    else none

/-- The naive whole-list scan (claim C10's reference). -/
def nearest_on_face_noskip {F : Type} [LinearOrderedField F]
    (dist : Point2 F → Point2 F → F) (alpha : Bary F)
    (cones : List (FaceCone F)) : Option (ℕ × F) :=
  cones.enum.foldl (nearest_on_face_step_noskip dist alpha) none

/-- The scan as the spec's §4.9 words it ("Early-out: once the current
best distance is ≤ `d` of the next candidate, stop"): identical to the
naive scan except that it terminates outright at the first candidate
whose source distance is at least the current best. -/
def nearest_on_face_early {F : Type} [LinearOrderedField F]
    (dist : Point2 F → Point2 F → F) (alpha : Bary F) :
    List (ℕ × FaceCone F) → Option (ℕ × F) → Option (ℕ × F)
  | [], acc => acc
  | ic :: rest, acc =>
    match acc with
    | some (j, closestDistance) =>
      if ic.2.distanceFromSourceToRoot ≥ closestDistance then some (j, closestDistance)
      else nearest_on_face_early dist alpha rest
        (nearest_on_face_step_noskip dist alpha (some (j, closestDistance)) ic)
    | none =>
      nearest_on_face_early dist alpha rest
        (nearest_on_face_step_noskip dist alpha none ic)

/-- A cone's window contains the unfolded image of the query coordinate. -/
def cone_contains {F : Type} (alpha : Bary F) (c : FaceCone F) : Bool :=
  c.insideWindowFn (face_location_in_context c alpha)

/-- The cost `d + ||I − image(alpha)||` of answering the query from cone `c`. -/
def cone_cost {F : Type} [LinearOrderedField F]
    (dist : Point2 F → Point2 F → F) (alpha : Bary F) (c : FaceCone F) : F :=
  distance_to_root dist c (face_location_in_context c alpha)

/-- The costs of the cones whose window contains the query image. -/
def containing_costs {F : Type} [LinearOrderedField F]
    (dist : Point2 F → Point2 F → F) (alpha : Bary F)
    (cones : List (FaceCone F)) : List F :=
  (cones.filter (cone_contains alpha)).map (cone_cost dist alpha)

lemma nearest_step_eq_noskip {F : Type} [LinearOrderedField F]
    (dist : Point2 F → Point2 F → F) (alpha : Bary F)
    (hdist : ∀ p q : Point2 F, 0 ≤ dist p q)
    (acc : Option (ℕ × F)) (ic : ℕ × FaceCone F) :
    nearest_on_face_step dist alpha acc ic =
      nearest_on_face_step_noskip dist alpha acc ic := by
  rcases acc with _ | ⟨j, b⟩
  · rfl
  · by_cases hskip : ic.2.distanceFromSourceToRoot ≥ b
    · have hnotlt : ¬ distance_to_root dist ic.2 (face_location_in_context ic.2 alpha) < b := by
        have := hdist ic.2.sourceImage (face_location_in_context ic.2 alpha)
        simp only [distance_to_root]
        nlinarith
      simp only [nearest_on_face_step, nearest_on_face_step_noskip, if_pos hskip,
        if_neg hnotlt]
      split <;> rfl
    · simp only [nearest_on_face_step, nearest_on_face_step_noskip, if_neg hskip]

lemma nearest_on_face_eq_noskip_aux {F : Type} [LinearOrderedField F]
    (dist : Point2 F → Point2 F → F) (alpha : Bary F)
    (hdist : ∀ p q : Point2 F, 0 ≤ dist p q) :
    ∀ (l : List (ℕ × FaceCone F)) (acc : Option (ℕ × F)),
      l.foldl (nearest_on_face_step dist alpha) acc =
        l.foldl (nearest_on_face_step_noskip dist alpha) acc := by
  intro l
  induction l with
  | nil => intro acc; rfl
  | cons ic t ih =>
    intro acc
    simp only [List.foldl_cons, nearest_step_eq_noskip dist alpha hdist, ih]

/-- The containing-cone costs of a position-tagged candidate list. -/
def containing_costs_p {F : Type} [LinearOrderedField F]
    (dist : Point2 F → Point2 F → F) (alpha : Bary F)
    (l : List (ℕ × FaceCone F)) : List F :=
  ((l.map Prod.snd).filter (cone_contains alpha)).map (cone_cost dist alpha)

lemma step_noskip_none {F : Type} [LinearOrderedField F]
    (dist : Point2 F → Point2 F → F) (alpha : Bary F) (i : ℕ) (c : FaceCone F) :
    nearest_on_face_step_noskip dist alpha none (i, c) =
      if cone_contains alpha c then some (i, cone_cost dist alpha c) else none := rfl

lemma step_noskip_some {F : Type} [LinearOrderedField F]
    (dist : Point2 F → Point2 F → F) (alpha : Bary F) (j : ℕ) (b : F)
    (i : ℕ) (c : FaceCone F) :
    nearest_on_face_step_noskip dist alpha (some (j, b)) (i, c) =
      if cone_contains alpha c then
        (if cone_cost dist alpha c < b then some (i, cone_cost dist alpha c) else some (j, b))
      else some (j, b) := rfl

lemma costs_p_cons {F : Type} [LinearOrderedField F]
    (dist : Point2 F → Point2 F → F) (alpha : Bary F)
    (i : ℕ) (c : FaceCone F) (t : List (ℕ × FaceCone F)) :
    containing_costs_p dist alpha ((i, c) :: t) =
      if cone_contains alpha c then
        cone_cost dist alpha c :: containing_costs_p dist alpha t
      else containing_costs_p dist alpha t := by
  simp only [containing_costs_p, List.map_cons, List.filter_cons]
  split <;> simp

/-- Soundness of the naive scan: a `none` result means no containing cone,
and a `some` result's distance is a member of, and a lower bound of, the
containing-cone costs. -/
lemma noskip_fold_sound {F : Type} [LinearOrderedField F]
    (dist : Point2 F → Point2 F → F) (alpha : Bary F) :
    ∀ (l : List (ℕ × FaceCone F)) (acc : Option (ℕ × F)),
      (l.foldl (nearest_on_face_step_noskip dist alpha) acc = none ↔
        acc = none ∧ containing_costs_p dist alpha l = []) ∧
      (∀ j v, l.foldl (nearest_on_face_step_noskip dist alpha) acc = some (j, v) →
        (v ∈ containing_costs_p dist alpha l ∨ ∃ j0, acc = some (j0, v)) ∧
        (∀ w ∈ containing_costs_p dist alpha l, v ≤ w) ∧
        (∀ j0 b, acc = some (j0, b) → v ≤ b)) := by
  intro l
  induction l with
  | nil =>
    intro acc
    refine ⟨by simp [containing_costs_p], ?_⟩
    rintro j v rfl
    refine ⟨Or.inr ⟨j, rfl⟩, by simp [containing_costs_p], ?_⟩
    intro j0 b h
    injection h with h
    injection h with h1 h2
    exact le_of_eq h2
  | cons ic t ih =>
    rcases ic with ⟨i, c⟩
    intro acc
    by_cases hc : cone_contains alpha c = true
    · rcases acc with _ | ⟨j0, b⟩
      · -- no accumulator yet, containing candidate becomes the accumulator
        simp only [List.foldl_cons, step_noskip_none, if_pos hc, costs_p_cons, hc, if_true]
        refine ⟨?_, ?_⟩
        · rw [(ih (some (i, cone_cost dist alpha c))).1]
          simp
        · intro j v hsome
          obtain ⟨hmem, hlb, hacc⟩ := (ih (some (i, cone_cost dist alpha c))).2 j v hsome
          refine ⟨?_, ?_, by rintro j0 b ⟨⟩⟩
          · rcases hmem with hmem | ⟨j1, hj1⟩
            · exact Or.inl (List.mem_cons_of_mem _ hmem)
            · injection hj1 with hj1
              injection hj1 with _ hv
              exact Or.inl (hv ▸ List.mem_cons_self _ _)
          · intro w hw
            rcases List.mem_cons.mp hw with rfl | hw
            · exact hacc i _ rfl
            · exact hlb w hw
      · -- accumulator present, containing candidate competes with it
        have hmin : ∃ j1 b1, nearest_on_face_step_noskip dist alpha (some (j0, b)) (i, c) =
            some (j1, b1) ∧ b1 ≤ b ∧ b1 ≤ cone_cost dist alpha c := by
          rw [step_noskip_some, if_pos hc]
          by_cases hlt : cone_cost dist alpha c < b
          · exact ⟨i, cone_cost dist alpha c, by rw [if_pos hlt], le_of_lt hlt, le_refl _⟩
          · exact ⟨j0, b, by rw [if_neg hlt], le_refl _, le_of_not_lt hlt⟩
        obtain ⟨j1, b1, hstep, hb1b, hb1c⟩ := hmin
        simp only [List.foldl_cons, hstep, costs_p_cons, hc, if_true]
        refine ⟨?_, ?_⟩
        · rw [(ih (some (j1, b1))).1]
          simp
        · intro j v hsome
          obtain ⟨hmem, hlb, hacc⟩ := (ih (some (j1, b1))).2 j v hsome
          have hvb1 : v ≤ b1 := hacc j1 b1 rfl
          have hvb : v ≤ b := le_trans hvb1 hb1b
          refine ⟨?_, ?_, ?_⟩
          · rcases hmem with hmem | ⟨j2, hj2⟩
            · exact Or.inl (List.mem_cons_of_mem _ hmem)
            · injection hj2 with hj2
              injection hj2 with _ hv
              subst hv
              -- the accumulator value is either the new cost or the old best
              rw [step_noskip_some, if_pos hc] at hstep
              by_cases hlt : cone_cost dist alpha c < b
              · rw [if_pos hlt] at hstep
                injection hstep with hstep
                injection hstep with _ hb1
                exact Or.inl (hb1 ▸ List.mem_cons_self _ _)
              · rw [if_neg hlt] at hstep
                injection hstep with hstep
                injection hstep with _ hb1
                exact Or.inr ⟨j0, by rw [hb1]⟩
          · intro w hw
            rcases List.mem_cons.mp hw with rfl | hw
            · exact le_trans hvb1 hb1c
            · exact hlb w hw
          · rintro j2 b2 hb2
            injection hb2 with hb2
            injection hb2 with _ hb2
            exact hb2 ▸ hvb
    · -- candidate's window does not contain the query: accumulator unchanged
      have hstep : nearest_on_face_step_noskip dist alpha acc (i, c) = acc := by
        rcases acc with _ | ⟨j0, b⟩
        · rw [step_noskip_none, if_neg hc]
        · rw [step_noskip_some, if_neg hc]
      simp only [List.foldl_cons, hstep, costs_p_cons, hc, if_false]
      exact ih acc

/-- Once every remaining candidate's source distance is at least the
current best, the skip branch leaves the accumulator untouched. -/
lemma skip_fold_stuck {F : Type} [LinearOrderedField F]
    (dist : Point2 F → Point2 F → F) (alpha : Bary F) :
    ∀ (l : List (ℕ × FaceCone F)) (j : ℕ) (b : F),
      (∀ ic ∈ l, b ≤ ic.2.distanceFromSourceToRoot) →
      l.foldl (nearest_on_face_step dist alpha) (some (j, b)) = some (j, b) := by
  intro l
  induction l with
  | nil => intro j b _; rfl
  | cons ic t ih =>
    intro j b hall
    have hskip : ic.2.distanceFromSourceToRoot ≥ b := hall ic (List.mem_cons_self _ _)
    simp only [List.foldl_cons, nearest_on_face_step, if_pos hskip]
    exact ih j b fun x hx => hall x (List.mem_cons_of_mem _ hx)

/-- On a candidate list sorted by source distance, the per-candidate skip
scan and the stop-at-first-dominated scan agree. -/
lemma skip_fold_eq_early {F : Type} [LinearOrderedField F]
    (dist : Point2 F → Point2 F → F) (alpha : Bary F) :
    ∀ (l : List (ℕ × FaceCone F)),
      List.Pairwise
        (fun a b => a.2.distanceFromSourceToRoot ≤ b.2.distanceFromSourceToRoot) l →
      ∀ (acc : Option (ℕ × F)),
        l.foldl (nearest_on_face_step dist alpha) acc =
          nearest_on_face_early dist alpha l acc := by
  intro l
  induction l with
  | nil => intro _ acc; rfl
  | cons ic t ih =>
    intro hp acc
    obtain ⟨hhead, htail⟩ := List.pairwise_cons.mp hp
    rcases acc with _ | ⟨j, b⟩
    · simp only [List.foldl_cons, nearest_on_face_early]
      exact ih htail _
    · by_cases hskip : ic.2.distanceFromSourceToRoot ≥ b
      · simp only [List.foldl_cons, nearest_on_face_early, if_pos hskip,
          nearest_on_face_step]
        exact skip_fold_stuck dist alpha t j b
          fun x hx => le_trans hskip (hhead x hx)
      · simp only [List.foldl_cons, nearest_on_face_early, if_neg hskip,
          nearest_on_face_step, nearest_on_face_step_noskip]
        exact ih htail _

lemma snd_mem_of_mem_enumFrom {α : Type} :
    ∀ (n : ℕ) (l : List α) (x : ℕ × α), x ∈ List.enumFrom n l → x.2 ∈ l := by
  intro n l
  induction l generalizing n with
  | nil => intro x hx; simp at hx
  | cons a t ih =>
    intro x hx
    rw [List.enumFrom_cons] at hx
    rcases List.mem_cons.mp hx with rfl | hx
    · exact List.mem_cons_self _ _
    · exact List.mem_cons_of_mem _ (ih (n + 1) x hx)

lemma pairwise_enumFrom {F : Type} {R : FaceCone F → FaceCone F → Prop} :
    ∀ (n : ℕ) (l : List (FaceCone F)), l.Pairwise R →
      (List.enumFrom n l).Pairwise (fun a b => R a.2 b.2) := by
  intro n l
  induction l generalizing n with
  | nil => intro _; simp
  | cons a t ih =>
    intro hp
    obtain ⟨hhead, htail⟩ := List.pairwise_cons.mp hp
    rw [List.enumFrom_cons]
    refine List.pairwise_cons.mpr ⟨?_, ih (n + 1) htail⟩
    intro x hx
    exact hhead x.2 (snd_mem_of_mem_enumFrom (n + 1) t x hx)

lemma costs_p_enum {F : Type} [LinearOrderedField F]
    (dist : Point2 F → Point2 F → F) (alpha : Bary F)
    (cones : List (FaceCone F)) :
    containing_costs_p dist alpha cones.enum = containing_costs dist alpha cones := by
  simp [containing_costs_p, containing_costs, List.enum_map_snd]

/-- C4: after construction (the face-occupier lists having been sorted by
source distance), `shortest_distance_to_location` yields a value exactly
when some cone of the face's occupier list contains the unfolded query
image, and that value is the minimum over the containing cones of
`d + ||I − image(bary)||`; moreover the per-candidate skip scan is
observationally the spec's early-stopping scan. -/
theorem c4_shortest_distance_to_location_minimum {F : Type} [LinearOrderedField F]
    (dist : Point2 F → Point2 F → F) (alpha : Bary F) (cones : List (FaceCone F))
    (hdist : ∀ p q : Point2 F, 0 ≤ dist p q)
    (hsorted : List.Pairwise
      (fun a b => a.distanceFromSourceToRoot ≤ b.distanceFromSourceToRoot) cones) :
    ((shortest_distance_to_location dist alpha cones = none) ↔
      containing_costs dist alpha cones = []) ∧
    (∀ v, shortest_distance_to_location dist alpha cones = some v →
      v ∈ containing_costs dist alpha cones ∧
        ∀ w ∈ containing_costs dist alpha cones, v ≤ w) ∧
    nearest_on_face dist alpha cones =
      nearest_on_face_early dist alpha cones.enum none := by
  have hfold : nearest_on_face dist alpha cones =
      cones.enum.foldl (nearest_on_face_step_noskip dist alpha) none :=
    nearest_on_face_eq_noskip_aux dist alpha hdist cones.enum none
  obtain ⟨hnone, hsome⟩ := noskip_fold_sound dist alpha cones.enum none
  refine ⟨?_, ?_, ?_⟩
  · rw [shortest_distance_to_location, hfold, Option.map_eq_none', hnone,
      costs_p_enum]
    simp
  · intro v hv
    rw [shortest_distance_to_location, hfold, Option.map_eq_some'] at hv
    obtain ⟨⟨j, v'⟩, hjv, hv'⟩ := hv
    have hv2 : v' = v := hv'
    subst hv2
    obtain ⟨hmem, hlb, _⟩ := hsome j v' hjv
    rw [costs_p_enum] at hmem hlb
    rcases hmem with hmem | ⟨j0, hj0⟩
    · exact ⟨hmem, hlb⟩
    · cases hj0
  · rw [nearest_on_face]
    exact skip_fold_eq_early dist alpha cones.enum
      (by rw [List.enum]; exact pairwise_enumFrom 0 cones hsorted) none

/-- C10: the skip optimization in `nearest_on_face` (skipping candidates
whose source distance already reaches the best found distance) returns
the same (position, distance) result as the naive scan of the whole
occupier list, because each cone's distance to any point is at least its
`distance_from_source_to_root`. -/
theorem c10_nearest_on_face_skip_refines_naive {F : Type} [LinearOrderedField F]
    (dist : Point2 F → Point2 F → F) (alpha : Bary F) (cones : List (FaceCone F))
    (hdist : ∀ p q : Point2 F, 0 ≤ dist p q) :
    nearest_on_face dist alpha cones = nearest_on_face_noskip dist alpha cones ∧
    ∀ (c : FaceCone F) (p : Point2 F),
      c.distanceFromSourceToRoot ≤ distance_to_root dist c p := by
  refine ⟨nearest_on_face_eq_noskip_aux dist alpha hdist cones.enum none, ?_⟩
  intro c p
  have := hdist c.sourceImage p
  simp only [distance_to_root]
  linarith

/-! ## Events, lazy cancellation and node deletion (claims C7, C8)

`Cone_expansion_event` carries a parent pointer, a type, a window
segment and the `m_cancelled` flag; we give each event an id and keep
the flags in a shared table (the flag of an event is mutated through the
node's pending back-pointer, which here stores the event id).  The
priority queue is modelled as the list of pending events in priority
order, head first. -/
inductive EventType where
  | LEFT_CHILD
  | RIGHT_CHILD
  | PSEUDO_SOURCE
deriving DecidableEq

/-- A queued `Cone_expansion_event`. -/
structure PendingEvent (F : Type) where
  eid : ℕ
  etype : EventType
  parentId : ℕ
  windowSegment : Segment2 F
deriving DecidableEq

/-- The expansion performed for a non-cancelled dequeued event (the
`switch` of the main loop, lines 1237-1263). -/
inductive Dispatch (F : Type) where
  | expandPseudoSource (parent : ℕ)
  | expandLeftChild (parent : ℕ) (windowSegment : Segment2 F)
  | expandRightChild (parent : ℕ) (windowSegment : Segment2 F)
deriving DecidableEq

def dispatch_of {F : Type} (e : PendingEvent F) : Dispatch F :=
  match e.etype with
  | EventType.PSEUDO_SOURCE => Dispatch.expandPseudoSource e.parentId
  | EventType.LEFT_CHILD => Dispatch.expandLeftChild e.parentId e.windowSegment
  | EventType.RIGHT_CHILD => Dispatch.expandRightChild e.parentId e.windowSegment

/-- The engine state touched by the main loop and by `delete_node`:
the priority queue, the per-event cancellation flags, the log of
destroyed (freed) event ids, and the two arbitration tables (which here
store node ids). -/
structure EngineState (F : Type) where
  queue : List (PendingEvent F)
  cancelled : ℕ → Bool
  freed : List ℕ
  vertexOccupiers : ℕ → Option ℕ × F
  closestToVertices : ℕ → Option ℕ × F

/-- The per-node data `delete_node` reads: the node id, its entry
halfedge index, its target vertex index, and the ids of the node's
pending events (`m_pendingLeftSubtree` etc., `none` = `NULL`). -/
structure DNodeData where
  nid : ℕ
  entryEdgeIndex : ℕ
  targetVertexIndex : ℕ
  pendingLeft : Option ℕ
  pendingRight : Option ℕ
  pendingMiddle : Option ℕ
deriving DecidableEq

/-- A cone-tree node with its children, as traversed by `delete_node`
(`get_left_child` / `get_right_child` / `pop_middle_child` of the
missing `Cone_tree.h`; nullable child pointers become lists of length at
most one, and `middleChildren` keeps the pop order). -/
inductive DTree : Type where
  | mk (data : DNodeData) (leftChild : List DTree) (rightChild : List DTree)
      (middleChildren : List DTree)

/-- Setting `m_cancelled = true` through a pending back-pointer. -/
def cancel_pending {F : Type} (s : EngineState F) (p : Option ℕ) : EngineState F :=
  match p with
  | none => s
  | some e => { s with cancelled := fun i => if i = e then true else s.cancelled i }

/-- The table fix-up at the end of `delete_node` (lines 845-857): the
occupier entry of the node's entry halfedge is cleared only if it still
references the node, and only inside that branch is the
closest-at-vertex entry of the node's target vertex examined and
(conditionally) cleared. -/
def delete_fixup {F : Type} (s : EngineState F) (d : DNodeData) : EngineState F :=
  if (s.vertexOccupiers d.entryEdgeIndex).1 = some d.nid then
    let s1 : EngineState F :=
      { s with vertexOccupiers :=
          fun i => if i = d.entryEdgeIndex then (none, (s.vertexOccupiers i).2) else s.vertexOccupiers i }
    if (s1.closestToVertices d.targetVertexIndex).1 = some d.nid then
      { s1 with closestToVertices :=
          fun i => if i = d.targetVertexIndex then (none, (s1.closestToVertices i).2) else s1.closestToVertices i }
    else s1
  else s

mutual
/-- `delete_node` (lines 787-859): cancel the pending left event, delete
the left child, likewise right and middle, then fix up the tables. -/
def delete_node {F : Type} : DTree → EngineState F → EngineState F
  | DTree.mk d l r m, s =>
    let s1 := cancel_pending s d.pendingLeft
    let s2 := delete_list l s1
    let s3 := cancel_pending s2 d.pendingRight
    let s4 := delete_list r s3
    let s5 := cancel_pending s4 d.pendingMiddle
    let s6 := delete_list m s5
    delete_fixup s6 d

/-- Recursive deletion of a list of children. -/
def delete_list {F : Type} : List DTree → EngineState F → EngineState F
  | [], s => s
  | t :: ts, s => delete_list ts (delete_node t s)
end

mutual
/-- The pending event ids of a node and all its descendants, in
cancellation order. -/
def treePendings : DTree → List ℕ
  | DTree.mk d l r m =>
    d.pendingLeft.toList ++ listPendings l ++ d.pendingRight.toList ++
      listPendings r ++ d.pendingMiddle.toList ++ listPendings m

def listPendings : List DTree → List ℕ
  | [] => []
  | t :: ts => treePendings t ++ listPendings ts
end

mutual
/-- The node data of a node and all its descendants. -/
def treeNodeData : DTree → List DNodeData
  | DTree.mk d l r m => d :: (listNodeData l ++ listNodeData r ++ listNodeData m)

def listNodeData : List DTree → List DNodeData
  | [] => []
  | t :: ts => treeNodeData t ++ listNodeData ts
end

lemma cancel_pending_queue {F : Type} (s : EngineState F) (p : Option ℕ) :
    (cancel_pending s p).queue = s.queue := by cases p <;> rfl

lemma cancel_pending_freed {F : Type} (s : EngineState F) (p : Option ℕ) :
    (cancel_pending s p).freed = s.freed := by cases p <;> rfl

lemma cancel_pending_occ {F : Type} (s : EngineState F) (p : Option ℕ) :
    (cancel_pending s p).vertexOccupiers = s.vertexOccupiers := by cases p <;> rfl

lemma cancel_pending_closest {F : Type} (s : EngineState F) (p : Option ℕ) :
    (cancel_pending s p).closestToVertices = s.closestToVertices := by cases p <;> rfl

lemma cancel_pending_cancelled {F : Type} (s : EngineState F) (p : Option ℕ) (e : ℕ) :
    (cancel_pending s p).cancelled e = (s.cancelled e || decide (e ∈ p.toList)) := by
  cases p with
  | none => simp [cancel_pending]
  | some x =>
    by_cases hx : e = x <;> simp [cancel_pending, hx]

lemma delete_fixup_queue {F : Type} (s : EngineState F) (d : DNodeData) :
    (delete_fixup s d).queue = s.queue := by
  by_cases h1 : (s.vertexOccupiers d.entryEdgeIndex).1 = some d.nid <;>
    by_cases h2 : (s.closestToVertices d.targetVertexIndex).1 = some d.nid <;>
    simp [delete_fixup, h1, h2]

lemma delete_fixup_freed {F : Type} (s : EngineState F) (d : DNodeData) :
    (delete_fixup s d).freed = s.freed := by
  by_cases h1 : (s.vertexOccupiers d.entryEdgeIndex).1 = some d.nid <;>
    by_cases h2 : (s.closestToVertices d.targetVertexIndex).1 = some d.nid <;>
    simp [delete_fixup, h1, h2]

lemma delete_fixup_cancelled {F : Type} (s : EngineState F) (d : DNodeData) :
    (delete_fixup s d).cancelled = s.cancelled := by
  by_cases h1 : (s.vertexOccupiers d.entryEdgeIndex).1 = some d.nid <;>
    by_cases h2 : (s.closestToVertices d.targetVertexIndex).1 = some d.nid <;>
    simp [delete_fixup, h1, h2]

lemma delete_fixup_skip {F : Type} (s : EngineState F) (d : DNodeData)
    (h : (s.vertexOccupiers d.entryEdgeIndex).1 ≠ some d.nid) :
    delete_fixup s d = s := by
  unfold delete_fixup
  rw [if_neg h]

/-- Deletion's effect on the event machinery, by strong induction on the
subtree size: the queue and the destroyed-log are untouched, and the
cancellation table gains exactly the pending events of the deleted
subtree. -/
lemma delete_effect_aux {F : Type} :
    ∀ n : ℕ,
      (∀ t : DTree, sizeOf t ≤ n → ∀ s : EngineState F,
        (delete_node t s).queue = s.queue ∧
        (delete_node t s).freed = s.freed ∧
        (delete_node t s).cancelled =
          fun e => s.cancelled e || decide (e ∈ treePendings t)) ∧
      (∀ ts : List DTree, sizeOf ts ≤ n → ∀ s : EngineState F,
        (delete_list ts s).queue = s.queue ∧
        (delete_list ts s).freed = s.freed ∧
        (delete_list ts s).cancelled =
          fun e => s.cancelled e || decide (e ∈ listPendings ts)) := by
  intro n
  induction n with
  | zero =>
    constructor
    · intro t ht
      cases t with
      | mk d l r m => simp only [DTree.mk.sizeOf_spec] at ht; omega
    · intro ts hts
      cases ts with
      | nil => intro s; simp [delete_list, listPendings]
      | cons t ts' => simp only [List.cons.sizeOf_spec] at hts; omega
  | succ n ih =>
    obtain ⟨iht, ihl⟩ := ih
    constructor
    · intro t ht s
      cases t with
      | mk d l r m =>
        simp only [DTree.mk.sizeOf_spec] at ht
        have hl : sizeOf l ≤ n := by omega
        have hr : sizeOf r ≤ n := by omega
        have hm : sizeOf m ≤ n := by omega
        simp only [delete_node]
        refine ⟨?_, ?_, ?_⟩
        · rw [delete_fixup_queue, (ihl m hm _).1, cancel_pending_queue,
            (ihl r hr _).1, cancel_pending_queue, (ihl l hl _).1,
            cancel_pending_queue]
        · rw [delete_fixup_freed, (ihl m hm _).2.1, cancel_pending_freed,
            (ihl r hr _).2.1, cancel_pending_freed, (ihl l hl _).2.1,
            cancel_pending_freed]
        · funext e
          rw [congrFun (delete_fixup_cancelled _ d) e,
            congrFun (ihl m hm _).2.2 e, cancel_pending_cancelled,
            congrFun (ihl r hr _).2.2 e, cancel_pending_cancelled,
            congrFun (ihl l hl _).2.2 e, cancel_pending_cancelled]
          simp only [treePendings, List.mem_append, Bool.decide_or, Bool.or_assoc]
    · intro ts hts s
      cases ts with
      | nil => simp [delete_list, listPendings]
      | cons t ts' =>
        simp only [List.cons.sizeOf_spec] at hts
        have ht : sizeOf t ≤ n := by omega
        have hts' : sizeOf ts' ≤ n := by omega
        simp only [delete_list]
        refine ⟨?_, ?_, ?_⟩
        · rw [(ihl ts' hts' _).1, (iht t ht s).1]
        · rw [(ihl ts' hts' _).2.1, (iht t ht s).2.1]
        · funext e
          rw [congrFun (ihl ts' hts' _).2.2 e, congrFun (iht t ht s).2.2 e]
          simp only [listPendings, List.mem_append, Bool.decide_or, Bool.or_assoc]

/-- If no node of the deleted subtree is the occupier of its own entry
halfedge, deletion leaves both arbitration tables exactly as they were
(strong induction on the subtree size). -/
lemma delete_preserve_tables_aux {F : Type} :
    ∀ n : ℕ,
      (∀ t : DTree, sizeOf t ≤ n → ∀ s : EngineState F,
        (∀ d ∈ treeNodeData t, (s.vertexOccupiers d.entryEdgeIndex).1 ≠ some d.nid) →
        (delete_node t s).vertexOccupiers = s.vertexOccupiers ∧
        (delete_node t s).closestToVertices = s.closestToVertices) ∧
      (∀ ts : List DTree, sizeOf ts ≤ n → ∀ s : EngineState F,
        (∀ d ∈ listNodeData ts, (s.vertexOccupiers d.entryEdgeIndex).1 ≠ some d.nid) →
        (delete_list ts s).vertexOccupiers = s.vertexOccupiers ∧
        (delete_list ts s).closestToVertices = s.closestToVertices) := by
  intro n
  induction n with
  | zero =>
    constructor
    · intro t ht
      cases t with
      | mk d l r m => simp only [DTree.mk.sizeOf_spec] at ht; omega
    · intro ts hts
      cases ts with
      | nil => intro s _; simp [delete_list]
      | cons t ts' => simp only [List.cons.sizeOf_spec] at hts; omega
  | succ n ih =>
    obtain ⟨iht, ihl⟩ := ih
    constructor
    · intro t ht s hni
      cases t with
      | mk d l r m =>
        simp only [DTree.mk.sizeOf_spec] at ht
        have hl : sizeOf l ≤ n := by omega
        have hr : sizeOf r ≤ n := by omega
        have hm : sizeOf m ≤ n := by omega
        have hd : (s.vertexOccupiers d.entryEdgeIndex).1 ≠ some d.nid :=
          hni d (by simp [treeNodeData])
        have hL : ∀ d' ∈ listNodeData l,
            (s.vertexOccupiers d'.entryEdgeIndex).1 ≠ some d'.nid :=
          fun d' h' => hni d' (by simp [treeNodeData]; tauto)
        have hR : ∀ d' ∈ listNodeData r,
            (s.vertexOccupiers d'.entryEdgeIndex).1 ≠ some d'.nid :=
          fun d' h' => hni d' (by simp [treeNodeData]; tauto)
        have hM : ∀ d' ∈ listNodeData m,
            (s.vertexOccupiers d'.entryEdgeIndex).1 ≠ some d'.nid :=
          fun d' h' => hni d' (by simp [treeNodeData]; tauto)
        simp only [delete_node]
        -- chase the six intermediate states
        have e1o := cancel_pending_occ s d.pendingLeft
        have e1c := cancel_pending_closest s d.pendingLeft
        obtain ⟨e2o, e2c⟩ := ihl l hl (cancel_pending s d.pendingLeft)
          (by rw [e1o]; exact hL)
        have e3o := cancel_pending_occ (delete_list l (cancel_pending s d.pendingLeft))
          d.pendingRight
        have e3c := cancel_pending_closest (delete_list l (cancel_pending s d.pendingLeft))
          d.pendingRight
        obtain ⟨e4o, e4c⟩ := ihl r hr
          (cancel_pending (delete_list l (cancel_pending s d.pendingLeft)) d.pendingRight)
          (by rw [e3o, e2o, e1o]; exact hR)
        have e5o := cancel_pending_occ
          (delete_list r
            (cancel_pending (delete_list l (cancel_pending s d.pendingLeft)) d.pendingRight))
          d.pendingMiddle
        have e5c := cancel_pending_closest
          (delete_list r
            (cancel_pending (delete_list l (cancel_pending s d.pendingLeft)) d.pendingRight))
          d.pendingMiddle
        obtain ⟨e6o, e6c⟩ := ihl m hm
          (cancel_pending
            (delete_list r
              (cancel_pending (delete_list l (cancel_pending s d.pendingLeft)) d.pendingRight))
            d.pendingMiddle)
          (by rw [e5o, e4o, e3o, e2o, e1o]; exact hM)
        have hskip := delete_fixup_skip
          (delete_list m
            (cancel_pending
              (delete_list r
                (cancel_pending (delete_list l (cancel_pending s d.pendingLeft)) d.pendingRight))
              d.pendingMiddle))
          d (by rw [e6o, e5o, e4o, e3o, e2o, e1o]; exact hd)
        rw [hskip]
        constructor
        · rw [e6o, e5o, e4o, e3o, e2o, e1o]
        · rw [e6c, e5c, e4c, e3c, e2c, e1c]
    · intro ts hts s hni
      cases ts with
      | nil => simp [delete_list]
      | cons t ts' =>
        simp only [List.cons.sizeOf_spec] at hts
        have ht : sizeOf t ≤ n := by omega
        have hts' : sizeOf ts' ≤ n := by omega
        have hH : ∀ d' ∈ treeNodeData t,
            (s.vertexOccupiers d'.entryEdgeIndex).1 ≠ some d'.nid :=
          fun d' h' => hni d' (by simp [listNodeData]; tauto)
        have hT : ∀ d' ∈ listNodeData ts',
            (s.vertexOccupiers d'.entryEdgeIndex).1 ≠ some d'.nid :=
          fun d' h' => hni d' (by simp [listNodeData]; tauto)
        obtain ⟨f1o, f1c⟩ := iht t ht s hH
        obtain ⟨f2o, f2c⟩ := ihl ts' hts' (delete_node t s) (by rw [f1o]; exact hT)
        simp only [delete_list]
        exact ⟨by rw [f2o, f1o], by rw [f2c, f1c]⟩

/-- The body of the main event loop (lines 1227-1271): pop the minimum
event; if its `m_cancelled` flag is not set, dispatch it to the
expansion routine selected by its type; in either case `delete` the
event exactly once afterwards.  `expand` stands for the three expansion
routines; the returned first component records the dispatch performed,
if any. -/
def loop_step {F : Type} (expand : Dispatch F → EngineState F → EngineState F)
    (s : EngineState F) : Option (Dispatch F) × EngineState F :=
  match s.queue with
  | [] => (none, s)
  | event :: rest =>
    let s1 : EngineState F := { s with queue := rest }
    if s.cancelled event.eid then
      (none, { s1 with freed := s1.freed ++ [event.eid] })
    else
      let s2 := expand (dispatch_of event) s1
      (some (dispatch_of event), { s2 with freed := s2.freed ++ [event.eid] })

/-- C7: a dequeued event is dispatched exactly when its cancelled flag is
unset; every dequeued event — cancelled or not — is destroyed exactly
once after being dequeued (provided the dispatched expansions themselves
never free events, as the code's expansion routines do not); and
deleting a node flips the cancelled flag of every pending event of the
node and of its descendants — left, right and middle — while leaving the
queue and the destroyed-log untouched. -/
theorem c7_event_loop_lazy_cancellation {F : Type}
    (expand : Dispatch F → EngineState F → EngineState F)
    (s : EngineState F) (event : PendingEvent F) (rest : List (PendingEvent F))
    (hq : s.queue = event :: rest)
    (hexp : ∀ (k : Dispatch F) (st : EngineState F), (expand k st).freed = st.freed) :
    ((loop_step expand s).1 =
      if s.cancelled event.eid then none else some (dispatch_of event)) ∧
    ((loop_step expand s).2.freed = s.freed ++ [event.eid]) ∧
    (∀ (t : DTree) (st : EngineState F),
      (delete_node t st).queue = st.queue ∧
      (delete_node t st).freed = st.freed ∧
      ∀ e, (delete_node t st).cancelled e =
        (st.cancelled e || decide (e ∈ treePendings t))) := by
  refine ⟨?_, ?_, ?_⟩
  · by_cases hc : s.cancelled event.eid = true <;>
      simp [loop_step, hq, hc]
  · by_cases hc : s.cancelled event.eid = true <;>
      simp [loop_step, hq, hc, hexp]
  · intro t st
    obtain ⟨hque, hfr, hcan⟩ := (delete_effect_aux (sizeOf t)).1 t le_rfl st
    exact ⟨hque, hfr, fun e => congrFun hcan e⟩

/-- C8: `delete_node` clears a closest-at-vertex entry only from within
the branch in which the deleted node is the occupier of its own entry
halfedge; consequently, when no node of the deleted subtree occupies its
entry halfedge, the closest-at-vertex table is left entirely unchanged —
in particular any entry referencing a deleted node still references it
(a dangling node id) after `delete_node` returns. -/
theorem c8_delete_node_dangling_closest {F : Type} (t : DTree) (s : EngineState F)
    (hocc : ∀ d ∈ treeNodeData t, (s.vertexOccupiers d.entryEdgeIndex).1 ≠ some d.nid) :
    (delete_node t s).closestToVertices = s.closestToVertices ∧
    ∀ (v : ℕ) (d : DNodeData), d ∈ treeNodeData t →
      (s.closestToVertices v).1 = some d.nid →
      ((delete_node t s).closestToVertices v).1 = some d.nid := by
  obtain ⟨_, hc⟩ := (delete_preserve_tables_aux (sizeOf t)).1 t le_rfl s hocc
  exact ⟨hc, fun v d _ hv => by rw [hc]; exact hv⟩

/-- Concrete node data for the deletion witnesses: node 7, entered over
halfedge 2, targeting vertex 3, with two pending events. -/
def dW : DNodeData := ⟨7, 2, 3, some 11, none, some 12⟩

/-- A childless concrete tree node. -/
def tW : DTree := DTree.mk dW [] [] []

/-- A concrete state in which vertex 3's closest node is node 7 while the
occupier of halfedge 2 is node 99. -/
def sW : EngineState ℚ where
  queue := []
  cancelled := fun _ => false
  freed := []
  vertexOccupiers := fun _ => (some 99, 0)
  closestToVertices := fun _ => (some 7, 5)

theorem c8_delete_node_dangling_closest_witness :
    (delete_node tW sW).closestToVertices = sW.closestToVertices :=
  (c8_delete_node_dangling_closest tW sW (by
    intro d hd
    simp only [tW, treeNodeData, listNodeData, List.append_nil, List.mem_singleton] at hd
    subst hd
    simp [sW, dW])).1

/-- A concrete queued event. -/
def eventW : PendingEvent ℚ := ⟨4, EventType.LEFT_CHILD, 7, ⟨⟨0, 0⟩, ⟨1, 0⟩⟩⟩

/-- A concrete state whose queue holds exactly `eventW`, nothing
cancelled. -/
def sQW : EngineState ℚ where
  queue := [eventW]
  cancelled := fun _ => false
  freed := []
  vertexOccupiers := fun _ => (none, 0)
  closestToVertices := fun _ => (none, 0)

/-- A dispatch routine that performs no state change (the expansion
effects are irrelevant to the loop bookkeeping). -/
def expandW : Dispatch ℚ → EngineState ℚ → EngineState ℚ := fun _ st => st

theorem c7_event_loop_lazy_cancellation_witness :
    ((loop_step expandW sQW).1 =
      if sQW.cancelled eventW.eid then none else some (dispatch_of eventW)) ∧
    ((loop_step expandW sQW).2.freed = sQW.freed ++ [eventW.eid]) :=
  ⟨(c7_event_loop_lazy_cancellation expandW sQW eventW [] rfl (fun _ _ => rfl)).1,
   (c7_event_loop_lazy_cancellation expandW sQW eventW [] rfl (fun _ _ => rfl)).2.1⟩

/-! ## Vertex type initialization (claims C5, C1)

Here the C++ `std::vector`s are modelled as `List`s because the claims
concern the vectors' sizes: a write `vec[i] = x` is in bounds exactly
when `i < vec.size()`. -/

/-- The mesh data consulted by the initialization: the table sizes, the
halfedge ring around each vertex (in the order the `do`-`while` of
`is_boundary_vertex` walks it), the face of a halfedge (`none` = null
face) and the opposite halfedge. -/
structure MeshSlice where
  numVertices : ℕ
  numHalfedges : ℕ
  ringOf : ℕ → List ℕ
  faceOf : ℕ → Option ℕ
  opp : ℕ → ℕ

/-- `is_boundary_vertex` (lines 896-913): boundary iff some halfedge of
the ring around `v`, or its opposite, has the null face. -/
def is_boundary_vertex (mesh : MeshSlice) (v : ℕ) : Bool :=
  (mesh.ringOf v).any fun h =>
    (mesh.faceOf h).isNone || (mesh.faceOf (mesh.opp h)).isNone

/-- The three per-vertex / per-halfedge vectors initialized before each
construction. -/
structure InitTables (F : Type) where
  vertexIsPseudoSource : List Bool
  closestToVertices : List (Option ℕ × F)
  vertexOccupiers : List (Option ℕ × F)

/-- `std::vector::resize(n)`: truncate or extend with value-initialized
elements. -/
def list_resize {α : Type} (l : List α) (n : ℕ) (dflt : α) : List α :=
  if n ≤ l.length then l.take n else l ++ List.replicate (n - l.length) dflt

/-- An element assignment `vec[i] = x` together with its bounds fact:
in bounds exactly when `i < vec.size()` (out of range, `List.set` writes
nothing; the C++ behaviour is undefined). -/
def list_write {α : Type} (l : List α) (i : ℕ) (x : α) : List α × Bool :=
  (l.set i x, decide (i < l.length))

/-- `reset_containers` (lines 915-929), restricted to the three tables
modelled here: resize them to the current mesh sizes. -/
def reset_containers {F : Type} [Zero F] (mesh : MeshSlice) (s : InitTables F) :
    InitTables F :=
  { vertexIsPseudoSource := list_resize s.vertexIsPseudoSource mesh.numVertices false
    closestToVertices := list_resize s.closestToVertices mesh.numVertices (none, 0)
    vertexOccupiers := list_resize s.vertexOccupiers mesh.numHalfedges (none, 0) }

/-- The body of the vertex loop of `set_vertex_types` (lines 865-879):
set the pseudo-source flag to `is_saddle || is_boundary` and clear the
closest-at-vertex entry. -/
def svt_vertex_step {F : Type} [Zero F] (mesh : MeshSlice) (isSaddle : ℕ → Bool)
    (acc : InitTables F × Bool) (v : ℕ) : InitTables F × Bool :=
  let ps := list_write acc.1.vertexIsPseudoSource v
    (isSaddle v || is_boundary_vertex mesh v)
  let ct := list_write acc.1.closestToVertices v (none, 0)
  ({ acc.1 with vertexIsPseudoSource := ps.1, closestToVertices := ct.1 },
    acc.2 && ps.2 && ct.2)

/-- The body of the halfedge loop of `set_vertex_types` (lines 885-888):
assign a cleared pair to the occupier entry. -/
def svt_halfedge_step {F : Type} [Zero F]
    (acc : InitTables F × Bool) (h : ℕ) : InitTables F × Bool :=
  let vo := list_write acc.1.vertexOccupiers h (none, 0)
  ({ acc.1 with vertexOccupiers := vo.1 }, acc.2 && vo.2)

/-- `set_vertex_types` (lines 861-889): for every vertex, set
`m_vertexIsPseudoSource[v] = is_saddle(v) || is_boundary(v)` and clear
`m_closestToVertices[v]`; then `m_vertexOccupiers.clear()` and, for
every halfedge, assign a cleared pair to `m_vertexOccupiers[h]`.  The
returned flag records whether every vector write was in bounds.
`isSaddle` is the external kernel predicate `is_saddle_vertex`. -/
def set_vertex_types {F : Type} [Zero F] (mesh : MeshSlice) (isSaddle : ℕ → Bool)
    (s : InitTables F) : InitTables F × Bool :=
  let sv := (List.range mesh.numVertices).foldl (svt_vertex_step mesh isSaddle) (s, true)
  let cleared : InitTables F := { sv.1 with vertexOccupiers := [] }
  (List.range mesh.numHalfedges).foldl svt_halfedge_step (cleared, sv.2)

/-- The initialization prefix of `compute_shortest_paths`
(lines 1151-1155): `reset_containers()`, `set_vertex_types()`, then the
two resizes of `m_vertexOccupiers` and `m_closestToVertices`. -/
def compute_shortest_paths_init {F : Type} [Zero F] (mesh : MeshSlice)
    (isSaddle : ℕ → Bool) (s : InitTables F) : InitTables F × Bool :=
  let r := set_vertex_types mesh isSaddle (reset_containers mesh s)
  ({ r.1 with
      vertexOccupiers := list_resize r.1.vertexOccupiers mesh.numHalfedges (none, 0)
      closestToVertices := list_resize r.1.closestToVertices mesh.numVertices (none, 0) },
    r.2)

/-- A single boundary triangle: vertices 0..2, interior halfedges 0..2 on
face 0, border halfedges 3..5 on the null face. -/
def meshT : MeshSlice where
  numVertices := 3
  numHalfedges := 6
  ringOf := fun v => [v, 3 + (v + 2) % 3]
  faceOf := fun h => if h < 3 then some 0 else none
  opp := fun h => if h < 3 then h + 3 else h - 3

/-- C5 (the code at the failing input): on a mesh with halfedges, the
per-halfedge clearing writes of `set_vertex_types` are *not* in bounds —
`m_vertexOccupiers.clear()` has just set the vector's size to 0, so every
subsequent `m_vertexOccupiers[h] = ...` indexes out of range (undefined
behaviour in C++; here the writes are dropped, leaving the vector
empty).  The per-vertex writes do land: the pseudo-source flags become
`is_saddle || is_boundary` (all three vertices of a boundary triangle
are boundary) and the closest-at-vertex entries are cleared. -/
theorem c5_set_vertex_types_occupier_writes_out_of_bounds :
    ((set_vertex_types meshT (fun _ => false)
        (reset_containers meshT (⟨[], [], []⟩ : InitTables ℚ))).2 = false) ∧
    ((set_vertex_types meshT (fun _ => false)
        (reset_containers meshT (⟨[], [], []⟩ : InitTables ℚ))).1.vertexOccupiers = []) ∧
    ((set_vertex_types meshT (fun _ => false)
        (reset_containers meshT (⟨[], [], []⟩ : InitTables ℚ))).1.vertexIsPseudoSource =
      [true, true, true]) ∧
    ((set_vertex_types meshT (fun _ => false)
        (reset_containers meshT (⟨[], [], []⟩ : InitTables ℚ))).1.closestToVertices =
      [(none, 0), (none, 0), (none, 0)]) := by
  refine ⟨?_, ?_, ?_, ?_⟩ <;> rfl

/-! ## Vertex distance query (claim C1) -/

/-- `shortest_distance_to_vertex` (lines 1314-1317): returns the raw
`.second` component of `m_closestToVertices[index(v)]` — always an `F`
scalar, with no separate unreachable variant. -/
def shortest_distance_to_vertex {F : Type} [Zero F]
    (closestToVertices : List (Option ℕ × F)) (v : ℕ) : F :=
  (closestToVertices.getD v (none, 0)).2

lemma set_replicate_self {α : Type} (a : α) :
    ∀ (n i : ℕ), (List.replicate n a).set i a = List.replicate n a := by
  intro n
  induction n with
  | zero => intro i; rfl
  | succ n ih =>
    intro i
    cases i with
    | zero => simp [List.replicate_succ]
    | succ i => simp [List.replicate_succ, List.set, ih i]

lemma getD_replicate {α : Type} (a d : α) :
    ∀ (n i : ℕ), i < n → (List.replicate n a).getD i d = a := by
  intro n
  induction n with
  | zero => intro i h; omega
  | succ n ih =>
    intro i h
    cases i with
    | zero => simp [List.replicate_succ]
    | succ i => simpa [List.replicate_succ] using ih i (by omega)

lemma list_resize_nil {α : Type} (n : ℕ) (d : α) :
    list_resize [] n d = List.replicate n d := by
  cases n <;> simp [list_resize]

lemma list_resize_self {α : Type} (l : List α) (n : ℕ) (d : α) (h : l.length = n) :
    list_resize l n d = l := by
  subst h
  simp [list_resize]

lemma vfold_closest_cleared {F : Type} [Zero F] (mesh : MeshSlice)
    (isSaddle : ℕ → Bool) (k : ℕ) :
    ∀ (l : List ℕ) (s : InitTables F) (b : Bool),
      s.closestToVertices = List.replicate k (none, 0) →
      ((l.foldl (svt_vertex_step mesh isSaddle) (s, b)).1).closestToVertices =
        List.replicate k (none, 0) := by
  intro l
  induction l with
  | nil => intro s b h; exact h
  | cons v t ih =>
    intro s b h
    simp only [List.foldl_cons]
    refine ih _ _ ?_
    simp [svt_vertex_step, list_write, h, set_replicate_self]

lemma hfold_closest_untouched {F : Type} [Zero F] :
    ∀ (l : List ℕ) (s : InitTables F) (b : Bool),
      ((l.foldl (svt_halfedge_step) (s, b)).1).closestToVertices =
        s.closestToVertices := by
  intro l
  induction l with
  | nil => intro s b; rfl
  | cons h t ih =>
    intro s b
    simp only [List.foldl_cons]
    rw [ih]
    rfl

/-- C1 (amended): on a freshly constructed engine, after the
initialization of `compute_shortest_paths`, every vertex's
closest-at-vertex entry holds no node — so a vertex of a component
containing no source keeps `(NULL, 0)` — and the public query
`shortest_distance_to_vertex` returns the plain scalar `0` stored
there: a numeric sentinel, not a variant distinct from the numeric
distances. -/
theorem c1_unreachable_vertex_query_returns_scalar_zero
    (mesh : MeshSlice) (isSaddle : ℕ → Bool) (v : ℕ) (hv : v < mesh.numVertices) :
    (((compute_shortest_paths_init mesh isSaddle
        (⟨[], [], []⟩ : InitTables ℚ)).1.closestToVertices.getD v (none, 0)).1 =
      none) ∧
    shortest_distance_to_vertex
      (compute_shortest_paths_init mesh isSaddle
        (⟨[], [], []⟩ : InitTables ℚ)).1.closestToVertices v = 0 := by
  have h0 : (reset_containers mesh (⟨[], [], []⟩ : InitTables ℚ)).closestToVertices =
      List.replicate mesh.numVertices (none, 0) := by
    simp [reset_containers, list_resize_nil]
  have h1 : (set_vertex_types mesh isSaddle
      (reset_containers mesh (⟨[], [], []⟩ : InitTables ℚ))).1.closestToVertices =
      List.replicate mesh.numVertices (none, 0) := by
    simp only [set_vertex_types]
    rw [hfold_closest_untouched]
    exact vfold_closest_cleared mesh isSaddle mesh.numVertices _ _ _ h0
  have h2 : (compute_shortest_paths_init mesh isSaddle
      (⟨[], [], []⟩ : InitTables ℚ)).1.closestToVertices =
      List.replicate mesh.numVertices (none, 0) := by
    simp only [compute_shortest_paths_init]
    rw [h1, list_resize_self _ _ _ (List.length_replicate _ _)]
  rw [shortest_distance_to_vertex, h2, getD_replicate _ _ _ _ hv]
  exact ⟨rfl, rfl⟩

/-- C1 (witness): the amended fact at the concrete boundary triangle,
vertex 0. -/
theorem c1_unreachable_vertex_query_returns_scalar_zero_witness :
    (((compute_shortest_paths_init meshT (fun _ => false)
        (⟨[], [], []⟩ : InitTables ℚ)).1.closestToVertices.getD 0 (none, 0)).1 =
      none) ∧
    shortest_distance_to_vertex
      (compute_shortest_paths_init meshT (fun _ => false)
        (⟨[], [], []⟩ : InitTables ℚ)).1.closestToVertices 0 = 0 :=
  c1_unreachable_vertex_query_returns_scalar_zero meshT (fun _ => false) 0
    (by decide)

/-- C1 (counterexample): on the boundary triangle with no sources, vertex
0 is unreachable (its closest entry holds no node), yet
`shortest_distance_to_vertex` returns the numeric value `0 : ℚ` — the
same scalar a genuine zero-distance source vertex would report — rather
than an `Unreachable` variant distinct from every numeric distance; the
claim is false of the code, whose query returns the raw `FT`. -/
theorem c1_counterexample_no_unreachable_variant :
    (((compute_shortest_paths_init meshT (fun _ => false)
        (⟨[], [], []⟩ : InitTables ℚ)).1.closestToVertices.getD 0 (none, 0)).1 =
      none) ∧
    shortest_distance_to_vertex
      (compute_shortest_paths_init meshT (fun _ => false)
        (⟨[], [], []⟩ : InitTables ℚ)).1.closestToVertices 0 = (0 : ℚ) := by
  exact ⟨rfl, rfl⟩

/-! ## Path sequence queries (claim C9) -/

/-- `shortest_path_sequence` for a vertex query (lines 1339-1344): read
the closest node of `v` and immediately dereference it with no null
check (`current->target_vertex_location()`, the start location handed to
`visit_shortest_path`; `nodeLoc` models that accessor of the missing
`Cone_tree.h` header).  A `NULL` node — an unreachable query point — has
no defined result; the embedding returns `none` for the undefined
dereference. -/
def shortest_path_sequence_vertex {F : Type} [Zero F]
    (closestToVertices : List (Option ℕ × F)) (nodeLoc : ℕ → Point2 F)
    (v : ℕ) : Option (ℕ × Point2 F) :=
  match (closestToVertices.getD v (none, 0)).1 with
  | none => none
  | some nid => some (nid, nodeLoc nid)

/-- `shortest_path_sequence` for a face-location query (lines 1356-1362):
the node returned by `nearest_on_face` is dereferenced by
`face_location_with_normalized_coordinate` with no null check; `none`
models the undefined dereference of the `NULL` node. -/
def shortest_path_sequence_location {F : Type} [LinearOrderedField F]
    (dist : Point2 F → Point2 F → F) (alpha : Bary F)
    (cones : List (FaceCone F)) : Option (ℕ × Point2 F) :=
  match nearest_on_face dist alpha cones with
  | none => none
  | some (i, _) =>
    match cones.get? i with
    | none => none
    | some c => some (i, face_location_in_context c alpha)

/-- C9: both `shortest_path_sequence` overloads dereference the looked-up
node unconditionally; on an unreachable query point (no closest node /
no containing cone) the result is undefined (`none` here), while a
successful vertex lookup proceeds straight into the dereference — so
the public interface is only defined under the precondition that the
query point is reachable from some source. -/
theorem c9_shortest_path_sequence_null_deref {F : Type} [LinearOrderedField F] :
    (∀ (ct : List (Option ℕ × F)) (nodeLoc : ℕ → Point2 F) (v : ℕ),
      (ct.getD v (none, 0)).1 = none →
      shortest_path_sequence_vertex ct nodeLoc v = none) ∧
    (∀ (ct : List (Option ℕ × F)) (nodeLoc : ℕ → Point2 F) (v nid : ℕ),
      (ct.getD v (none, 0)).1 = some nid →
      shortest_path_sequence_vertex ct nodeLoc v = some (nid, nodeLoc nid)) ∧
    (∀ (dist : Point2 F → Point2 F → F) (alpha : Bary F) (cones : List (FaceCone F)),
      nearest_on_face dist alpha cones = none →
      shortest_path_sequence_location dist alpha cones = none) := by
  refine ⟨?_, ?_, ?_⟩
  · intro ct nodeLoc v h
    simp only [shortest_path_sequence_vertex]
    rw [h]
  · intro ct nodeLoc v nid h
    simp only [shortest_path_sequence_vertex]
    rw [h]
  · intro dist alpha cones h
    simp only [shortest_path_sequence_location]
    rw [h]

/-- A closest-at-vertex table with a single unreachable vertex. -/
def ctW : List (Option ℕ × ℚ) := [(none, 0)]

/-- A trivial target-vertex-location accessor. -/
def nodeLocW : ℕ → Point2 ℚ := fun _ => ⟨0, 0⟩

/-- A trivial kernel distance. -/
def distZeroW : Point2 ℚ → Point2 ℚ → ℚ := fun _ _ => 0

/-- A vertex-corner barycentric coordinate. -/
def alphaW0 : Bary ℚ := ⟨1, 0, 0⟩

theorem c9_shortest_path_sequence_null_deref_witness :
    shortest_path_sequence_vertex ctW nodeLocW 0 = none ∧
    shortest_path_sequence_location distZeroW alphaW0 ([] : List (FaceCone ℚ)) = none :=
  ⟨(c9_shortest_path_sequence_null_deref (F := ℚ)).1 ctW nodeLocW 0 rfl,
   (c9_shortest_path_sequence_null_deref (F := ℚ)).2.2 distZeroW alphaW0 [] rfl⟩

/-! ## Edge root expansion (claim C6) -/

/-- The mesh data consulted by `expand_edge_root`: the opposite halfedge
and the face of a halfedge (`none` = null face). -/
structure EdgeMesh where
  opp : ℕ → ℕ
  faceOf : ℕ → Option ℕ

/-- A child node created by `expand_edge_root`, tagged with the side
(0 = the given halfedge, 1 = its opposite) it was created for. -/
structure EdgeRootChild (F : Type) where
  side : ℕ
  entryEdge : ℕ
  kind : NodeType
  layoutFace : Triangle2 F
  sourceImage : Point2 F
  windowLeft : Point2 F
  windowRight : Point2 F
  distanceFromSourceToRoot : F
deriving DecidableEq

/-- The source point of one side: the `(t0, t1)` combination of the first
two corners of that side's projected layout triangle (lines 379-381). -/
def edge_root_source_point {F : Type} [LinearOrderedField F]
    (layoutFace : Triangle2 F) (t0 t1 : F) : Point2 F :=
  ⟨layoutFace.q0.x * t0 + layoutFace.q1.x * t1,
   layoutFace.q0.y * t0 + layoutFace.q1.y * t1⟩

/-- `expand_edge_root` (lines 359-403): for each of the two sides of the
base halfedge — with no null-face test on either side — create a main
`EDGE_SOURCE` child (window `layout[0]`–`layout[2]`) and an opposite
`EDGE_SOURCE` child (layout `(layout[2], layout[1], layout[2])` as in
the source, window `layout[1]`–`layout[2]`), both laying the source at
the `(t0, t1)` point of the common edge.  `layoutOf h` stands for the
kernel projection `project_triangle_3_to_triangle_2` of
`triangle_from_halfedge(h)`; the root-node bookkeeping is elided and the
children created are returned in creation order. -/
def expand_edge_root {F : Type} [LinearOrderedField F] (mesh : EdgeMesh)
    (layoutOf : ℕ → Triangle2 F) (baseEdge : ℕ) (t0 t1 : F) :
    List (EdgeRootChild F) :=
  let baseEdges : List ℕ := [baseEdge, mesh.opp baseEdge]
  (List.range 2).flatMap fun side =>
    let be := baseEdges.getD side baseEdge
    let layoutFace := layoutOf be
    let sourcePoint := edge_root_source_point layoutFace t0 t1
    let mainChild : EdgeRootChild F :=
      ⟨side, be, NodeType.EDGE_SOURCE, layoutFace, sourcePoint,
        layoutFace.q0, layoutFace.q2, 0⟩
    let oppositeChild : EdgeRootChild F :=
      ⟨side, be, NodeType.EDGE_SOURCE,
        ⟨layoutFace.q2, layoutFace.q1, layoutFace.q2⟩, sourcePoint,
        layoutFace.q1, layoutFace.q2, 0⟩
    [mainChild, oppositeChild]

/-- C6 (amended): `expand_edge_root` creates exactly four `EDGE_SOURCE`
children — two per side, *unconditionally*: no null-face test is made,
so a boundary edge also receives two children on its null-face side —
each laying the source on the common edge at the `(t0, t1)`
combination of its side's layout corners. -/
theorem c6_expand_edge_root_four_children_unconditionally
    {F : Type} [LinearOrderedField F] (mesh : EdgeMesh)
    (layoutOf : ℕ → Triangle2 F) (baseEdge : ℕ) (t0 t1 : F) :
    (expand_edge_root mesh layoutOf baseEdge t0 t1).length = 4 ∧
    ((expand_edge_root mesh layoutOf baseEdge t0 t1).filter
      (fun c => c.side = 0)).length = 2 ∧
    ((expand_edge_root mesh layoutOf baseEdge t0 t1).filter
      (fun c => c.side = 1)).length = 2 ∧
    (∀ c ∈ expand_edge_root mesh layoutOf baseEdge t0 t1,
      c.kind = NodeType.EDGE_SOURCE ∧
      c.sourceImage = edge_root_source_point
        (layoutOf (if c.side = 0 then baseEdge else mesh.opp baseEdge)) t0 t1 ∧
      c.distanceFromSourceToRoot = 0) := by
  refine ⟨rfl, rfl, rfl, ?_⟩
  intro c hc
  have he : expand_edge_root mesh layoutOf baseEdge t0 t1 =
      [⟨0, baseEdge, NodeType.EDGE_SOURCE, layoutOf baseEdge,
          edge_root_source_point (layoutOf baseEdge) t0 t1,
          (layoutOf baseEdge).q0, (layoutOf baseEdge).q2, 0⟩,
        ⟨0, baseEdge, NodeType.EDGE_SOURCE,
          ⟨(layoutOf baseEdge).q2, (layoutOf baseEdge).q1, (layoutOf baseEdge).q2⟩,
          edge_root_source_point (layoutOf baseEdge) t0 t1,
          (layoutOf baseEdge).q1, (layoutOf baseEdge).q2, 0⟩,
        ⟨1, mesh.opp baseEdge, NodeType.EDGE_SOURCE, layoutOf (mesh.opp baseEdge),
          edge_root_source_point (layoutOf (mesh.opp baseEdge)) t0 t1,
          (layoutOf (mesh.opp baseEdge)).q0, (layoutOf (mesh.opp baseEdge)).q2, 0⟩,
        ⟨1, mesh.opp baseEdge, NodeType.EDGE_SOURCE,
          ⟨(layoutOf (mesh.opp baseEdge)).q2, (layoutOf (mesh.opp baseEdge)).q1,
            (layoutOf (mesh.opp baseEdge)).q2⟩,
          edge_root_source_point (layoutOf (mesh.opp baseEdge)) t0 t1,
          (layoutOf (mesh.opp baseEdge)).q1, (layoutOf (mesh.opp baseEdge)).q2, 0⟩] := rfl
  rw [he] at hc
  simp only [List.mem_cons, List.not_mem_nil, or_false] at hc
  rcases hc with rfl | rfl | rfl | rfl <;> exact ⟨rfl, rfl, rfl⟩

/-- A boundary edge: halfedge 0 lies on face 0, its opposite (halfedge 1)
on the null face. -/
def meshB : EdgeMesh where
  opp := fun h => if h = 0 then 1 else 0
  faceOf := fun h => if h = 0 then some 0 else none

/-- A fixed layout triangle for every halfedge. -/
def layoutB : ℕ → Triangle2 ℚ := fun _ => ⟨⟨0, 0⟩, ⟨1, 0⟩, ⟨0, 1⟩⟩

/-- C6 (counterexample): on a boundary edge — side 1 is the null face —
the code still creates two children whose entry halfedge lies on the
null face, contradicting the claim that no child is created on a
null-face side. -/
theorem c6_counterexample_null_face_side_gets_children :
    meshB.faceOf (meshB.opp 0) = none ∧
    ((expand_edge_root meshB layoutB 0 ((1 : ℚ)/2) ((1 : ℚ)/2)).filter
      (fun c => c.entryEdge = meshB.opp 0)).length = 2 := by
  exact ⟨rfl, rfl⟩

/-! ## Concrete instances for the face-query witnesses -/

/-- The taxicab metric: a concrete nonnegative kernel distance. -/
def distTaxi : Point2 ℚ → Point2 ℚ → ℚ := fun p q => |p.x - q.x| + |p.y - q.y|

/-- A concrete face-occupier list, sorted by source distance; both cones
contain every query point. -/
def conesW : List (FaceCone ℚ) :=
  [⟨0, ⟨0, 0⟩, fun _ => true, fun _ => ⟨1, 0⟩⟩,
   ⟨2, ⟨0, 0⟩, fun _ => true, fun _ => ⟨0, 0⟩⟩]

/-- The centroid barycentric coordinate. -/
def alphaW : Bary ℚ := ⟨1/3, 1/3, 1/3⟩

theorem c4_shortest_distance_to_location_minimum_witness :
    ((shortest_distance_to_location distTaxi alphaW conesW = none) ↔
      containing_costs distTaxi alphaW conesW = []) ∧
    nearest_on_face distTaxi alphaW conesW =
      nearest_on_face_early distTaxi alphaW conesW.enum none :=
  ⟨(c4_shortest_distance_to_location_minimum distTaxi alphaW conesW
      (fun _ _ => add_nonneg (abs_nonneg _) (abs_nonneg _))
      (by norm_num [conesW, List.pairwise_cons])).1,
   (c4_shortest_distance_to_location_minimum distTaxi alphaW conesW
      (fun _ _ => add_nonneg (abs_nonneg _) (abs_nonneg _))
      (by norm_num [conesW, List.pairwise_cons])).2.2⟩

theorem c10_nearest_on_face_skip_refines_naive_witness :
    nearest_on_face distTaxi alphaW conesW =
      nearest_on_face_noskip distTaxi alphaW conesW :=
  (c10_nearest_on_face_skip_refines_naive distTaxi alphaW conesW
    (fun _ _ => add_nonneg (abs_nonneg _) (abs_nonneg _))).1

end PolySP
